import Mathlib

/-!
Verification of the chunk-store core of rs-s3-local (src/fs.rs).

Shallow embedding conventions:
* Byte buffers and Rust strings are `List Nat` (the UTF-8 bytes); a Rust
  `&str` is a byte list satisfying `utf8ValidB`.
* Filesystem effects are made explicit: the chunk store is an association
  list from hash to stored bytes; `decompress_chunk` (which reads the
  filesystem) is an oracle parameter; a metadata file store is a function
  from path to optional contents.
* External library functions (sha2 digest, zstd compression, rkyv
  serialization) and the external EncryptionService (the spec treats the
  cipher as an opaque collaborator, and its implementation is not part of
  the core sources) are universally quantified parameters; claims that
  depend on their contracts state those contracts as hypotheses.
* Rust panics are modelled as a distinct outcome (`Option` result `none`,
  or the `LoadOutcome.panicked` constructor).
-/

/-- Model of `str::is_char_boundary` from the Rust standard library:
index 0 is always a boundary, an index inside the string is a boundary
iff the byte there is not a UTF-8 continuation byte (0x80..0xBF), and an
out-of-range index is a boundary iff it equals the length. -/
def isCharBoundary (s : List Nat) (i : Nat) : Bool :=
  i == 0 ||
    (match s.get? i with
     | some b => !(decide (128 ≤ b) && decide (b < 192))
     | none => i == s.length)

/-- Model of Rust string slicing `&s[a..b]`: returns the byte sub-slice when
`a ≤ b ≤ s.length` and both ends are char boundaries, and `none` (a panic)
otherwise. -/
def strSlice (s : List Nat) (a b : Nat) : Option (List Nat) :=
  if a ≤ b ∧ b ≤ s.length ∧ isCharBoundary s a ∧ isCharBoundary s b then
    some ((s.drop a).take (b - a))
  else
    none

/-- A UTF-8 continuation byte (0x80..0xBF). -/
def isContB (b : Nat) : Bool := decide (128 ≤ b) && decide (b < 192)

mutual

/-- Simplified UTF-8 well-formedness (mutually with the
continuation-counting helpers below): a valid byte list is a sequence of
encoded characters, each a lead byte followed by the right number of
continuation bytes; in particular a valid list never begins with a
continuation byte. (Overlong encodings and surrogates are not excluded;
every real Rust string satisfies this predicate.) -/
def utf8ValidB : List Nat → Bool
  | [] => true
  | b :: rest =>
    if b < 128 then utf8ValidB rest
    else if b < 192 then false
    else if b < 224 then utf8Tail1 rest
    else if b < 240 then utf8Tail2 rest
    else if b < 248 then utf8Tail3 rest
    else false

def utf8Tail1 : List Nat → Bool
  | c :: rest => isContB c && utf8ValidB rest
  | [] => false

def utf8Tail2 : List Nat → Bool
  | c :: rest => isContB c && utf8Tail1 rest
  | [] => false

def utf8Tail3 : List Nat → Bool
  | c :: rest => isContB c && utf8Tail2 rest
  | [] => false

end

/-- The metadata/chunk storage root, `PATH_PREFIX` in the source
(`const PATH_PREFIX: &str = "data/file"`). -/
def PATH_ROOT : String := "data/file"

/-- Model of `path_from_hash` (src/fs.rs lines 33-42).  The result is the
fixed root paired with the three joined segments
`&hash[0..1]`, `&hash[1..3]`, `&hash[3..]`; `none` models the panic of an
out-of-bounds or non-boundary slice. -/
def path_from_hash (hash : List Nat) : Option (String × List (List Nat)) :=
  match strSlice hash 0 1, strSlice hash 1 3, strSlice hash 3 hash.length with
  | some p1, some p2, some p3 => some (PATH_ROOT, [p1, p2, p3])
  | _, _, _ => none

/-- A byte of an ASCII hexadecimal digit (0-9, A-F, a-f). -/
def isHexByte (b : Nat) : Prop :=
  (48 ≤ b ∧ b ≤ 57) ∨ (65 ≤ b ∧ b ≤ 70) ∨ (97 ≤ b ∧ b ≤ 102)

instance (b : Nat) : Decidable (isHexByte b) := by
  unfold isHexByte; infer_instance

/-- The `Metadata` record of src/fs.rs: name, size (u64), file type,
timestamp (`DateTime<Utc>`, modelled as an integer timestamp) and the
ordered chunk-hash list.  Hash strings are byte lists as everywhere in
this development. -/
structure Metadata where
  name : List Nat
  size : Nat
  file_type : List Nat
  time : Int
  chunks : List (List Nat)
deriving DecidableEq, Repr

/-- Outcome of `load_metadata`: a returned value (`Ok`), a returned typed
error (`Err`), or a Rust panic. -/
inductive LoadOutcome (α : Type) where
  | ok : α → LoadOutcome α
  | err : String → LoadOutcome α
  | panicked : LoadOutcome α
deriving DecidableEq, Repr

/-- Model of `save_metadata` (src/fs.rs lines 112-119): serialize the
record with rkyv (`ser`, which may fail, mirroring the `?` on
`rkyv::to_bytes`), encrypt the archive bytes with the external
EncryptionService (`encrypt`, may fail), and write the ciphertext at
`path` in the metadata file store.  `none` models an early `Err` return;
on success the updated store is returned.  (`fs::create_dir_all` has no
observable effect in this model.) -/
def save_metadata (ser : Metadata → Option (List Nat))
    (encrypt : List Nat → Option (List Nat))
    (store : List Nat → Option (List Nat))
    (path : List Nat) (metadata : Metadata) :
    Option (List Nat → Option (List Nat)) :=
  match ser metadata with
  | none => none
  | some archBytes =>
    match encrypt archBytes with
    | none => none
    | some cipher => some (fun p => if p = path then some cipher else store p)

/-- Model of `load_metadata` (src/fs.rs lines 122-128): read the ciphertext
(`Err` with context "元数据地址不存在" when the path is absent), decrypt it
(`?` on failure), then run `rkyv::check_archived_root` followed by
`deserialize` — modelled together by `check`, which yields the record when
the archive bytes are structurally valid.  The source calls `.unwrap()` on
the check, so a structurally corrupt archive is a panic, not an `Err`. -/
def load_metadata (decrypt : List Nat → Option (List Nat))
    (check : List Nat → Option Metadata)
    (store : List Nat → Option (List Nat))
    (path : List Nat) : LoadOutcome Metadata :=
  match store path with
  | none => LoadOutcome.err "元数据地址不存在"
  | some cipher =>
    match decrypt cipher with
    | none => LoadOutcome.err "decrypt error"
    | some plain =>
      match check plain with
      | none => LoadOutcome.panicked
      | some metadata => LoadOutcome.ok metadata

/-- The `DecompressStream` state of src/fs.rs: the ordered hash list and
the cursor index. -/
structure DecompressStream where
  hashes : List (List Nat)
  idx : Nat
deriving DecidableEq, Repr

/-- Constructor `DecompressStream::new`: cursor starts at 0. -/
def DecompressStream.new (hashes : List (List Nat)) : DecompressStream :=
  DecompressStream.mk hashes 0

/-- One stream item as delivered to the consumer: `io::Result<Bytes>`. -/
abbrev StreamItem := Except String (List Nat)

/-- Model of `DecompressStream::poll_next` (src/fs.rs lines 146-162).
`dec h` is the result of `decompress_chunk(path_from_hash(h))` — the
filesystem read and zstd decode, `none` on any failure.  Past the end of
the hash list the stream yields `none` (exhaustion); otherwise on success
it yields the decompressed bytes as an `Ok` item and advances the cursor;
on failure it yields `none` and leaves the state untouched. -/
def pollNext (dec : List Nat → Option (List Nat)) (s : DecompressStream) :
    Option StreamItem × DecompressStream :=
  if s.hashes.length ≤ s.idx then (none, s)
  else
    match dec (s.hashes.getD s.idx []) with
    | some res => (some (Except.ok res), DecompressStream.mk s.hashes (s.idx + 1))
    | none => (none, s)

/-- Pull the stream repeatedly (up to `fuel` pulls), collecting the items
yielded before the first `none`; this is how a consumer drains the
stream to exhaustion. -/
def pullAll (dec : List Nat → Option (List Nat)) :
    Nat → DecompressStream → List StreamItem
  | 0, _ => []
  | fuel + 1, s =>
    match pollNext dec s with
    | (some item, s1) => item :: pullAll dec fuel s1
    | (none, _) => []

/-- Bytes carried by a list of stream items, concatenated in order
(error items contribute nothing). -/
def itemsBytes (items : List StreamItem) : List Nat :=
  items.foldr
    (fun it acc =>
      match it with
      | Except.ok b => b ++ acc
      | Except.error _ => acc) []

/-- Model of the `loop` of `split_file_and_save` (src/fs.rs lines 173-212),
one recursive call per iteration, with `fuel` bounding the iteration count.

State per iteration: `pos` is the `Cursor` position in `data`, `buffer` the
`BytesMut` contents, `size` and `chunks` the accumulators, `files` the
chunk store (hash, stored bytes), key-equal to paths via `path_from_hash`.

`reader.read(&mut buffer)` fills at most `buffer.len()` bytes — the slice
handed to `Read::read` is the buffer's CURRENT length (`BytesMut` derefs to
a `&mut [u8]` of its length; the read never grows it), so
`readN = min buffer.length (data.length - pos)` and the bytes read replace
the front of the buffer.  `sha` models `sum_sha256`, `comp` models
`compress_chunk`; `is_path_exist` is a lookup in `files`, `save_file` an
append to it. -/
def splitLoop (sha : List Nat → List Nat) (comp : List Nat → List Nat)
    (data : List Nat) (chunk_size : Nat) :
    Nat → Nat → List Nat → Nat → List (List Nat) →
    List (List Nat × List Nat) →
    Option (Nat × List (List Nat) × List (List Nat × List Nat))
  | 0, _, _, _, _, _ => none
  | fuel + 1, pos, buffer, size, chunks, files =>
    let readN := min buffer.length (data.length - pos)
    let buffer1 := (data.drop pos).take readN ++ buffer.drop readN
    if 0 < readN then
      if chunk_size ≤ buffer1.length then
        let chunk := buffer1.take chunk_size
        let h := sha chunk
        let files1 :=
          if (files.lookup h).isSome then files else files ++ [(h, comp chunk)]
        splitLoop sha comp data chunk_size fuel (pos + readN)
          (buffer1.drop chunk_size) (size + readN) (chunks ++ [h]) files1
      else
        splitLoop sha comp data chunk_size fuel (pos + readN) buffer1
          (size + readN) chunks files
    else
      if buffer1.isEmpty then some (size, chunks, files)
      else
        let h := sha buffer1
        let files1 :=
          if (files.lookup h).isSome then files
          else files ++ [(h, comp buffer1)]
        some (size, chunks ++ [h], files1)

/-- Model of `split_file_and_save` (src/fs.rs lines 173-212): run the loop
from a fresh cursor and — decisively — a freshly created EMPTY `BytesMut`
buffer (`BytesMut::new()` has length 0).  The fuel `data.length + 1`
covers every reachable iteration; `none` (out of fuel / divergence) is
never returned, as proved below. -/
def split_file_and_save (sha : List Nat → List Nat)
    (comp : List Nat → List Nat) (data : List Nat) (chunk_size : Nat)
    (files : List (List Nat × List Nat)) :
    Option (Nat × List (List Nat) × List (List Nat × List Nat)) :=
  splitLoop sha comp data chunk_size (data.length + 1) 0 [] 0 [] files

/-- Dummy digest used to evaluate the model at concrete inputs (the
results below do not depend on the digest function). -/
def shaId : List Nat → List Nat := fun b => b

/-- Dummy compression used to evaluate the model at concrete inputs. -/
def compId : List Nat → List Nat := fun b => b

/-- Chunk-resolution oracle in which every decompression fails. -/
def decNone : List Nat → Option (List Nat) := fun _ => none

/-- Helper: a pull past the end of the hash list yields `none` and leaves
the stream unchanged (normal exhaustion). -/
theorem pollNext_exhausted (dec : List Nat → Option (List Nat))
    (s : DecompressStream) (h : s.hashes.length ≤ s.idx) :
    pollNext dec s = (none, s) := by
  simp [pollNext, h]

/-- Helper: a pull whose decompression succeeds yields the bytes and
advances the cursor. -/
theorem pollNext_ok (dec : List Nat → Option (List Nat))
    (s : DecompressStream) (b : List Nat) (h : s.idx < s.hashes.length)
    (hd : dec (s.hashes.getD s.idx []) = some b) :
    pollNext dec s =
      (some (Except.ok b), DecompressStream.mk s.hashes (s.idx + 1)) := by
  have hd2 : dec (s.hashes[s.idx]?.getD []) = some b := by
    simpa [List.getD] using hd
  simp [pollNext, Nat.not_le.mpr h, hd2]

/-- Helper: a pull whose decompression fails yields `none` and leaves the
stream unchanged. -/
theorem pollNext_fail (dec : List Nat → Option (List Nat))
    (s : DecompressStream) (h : s.idx < s.hashes.length)
    (hd : dec (s.hashes.getD s.idx []) = none) :
    pollNext dec s = (none, s) := by
  have hd2 : dec (s.hashes[s.idx]?.getD []) = none := by
    simpa [List.getD] using hd
  simp [pollNext, Nat.not_le.mpr h, hd2]

/-- Helper: every item a `DecompressStream` ever delivers is an `Ok`
item; the `Err` variant of `io::Result<Bytes>` is never constructed by
`poll_next`. -/
theorem pullAll_items_ok (dec : List Nat → Option (List Nat)) :
    ∀ (fuel : Nat) (s : DecompressStream) (it : StreamItem),
      it ∈ pullAll dec fuel s → ∃ b, it = Except.ok b := by
  intro fuel
  induction fuel with
  | zero => intro s it hmem; simp [pullAll] at hmem
  | succ n ih =>
    intro s it hmem
    by_cases hc : s.hashes.length ≤ s.idx
    · rw [pullAll, pollNext_exhausted dec s hc] at hmem
      simp at hmem
    · push_neg at hc
      cases hd : dec (s.hashes.getD s.idx []) with
      | some b =>
        rw [pullAll, pollNext_ok dec s b hc hd] at hmem
        rcases List.mem_cons.mp hmem with h1 | h1
        · exact ⟨b, h1⟩
        · exact ih _ it h1
      | none =>
        rw [pullAll, pollNext_fail dec s hc hd] at hmem
        simp at hmem

/-- Helper: the first loop iteration reads `min 0 (data.length) = 0` bytes
into the empty buffer, hence takes the `read == 0` exit with an empty
buffer and returns the accumulators untouched — for every input. -/
theorem split_file_and_save_run (sha comp : List Nat → List Nat)
    (data : List Nat) (chunk_size : Nat)
    (files : List (List Nat × List Nat)) :
    split_file_and_save sha comp data chunk_size files =
      some (0, [], files) := by
  simp [split_file_and_save, splitLoop]

/-- Claim C7: whenever decompression of the hash at the current cursor
fails, the `DecompressStream` pull terminates the sequence immediately —
that pull yields no item, every further pull yields no item, the pull's
result is the very value an exhausted stream returns (so the consumer
sees nothing distinct from normal end-of-stream), and no `Err` item is
ever delivered by any run of the stream. -/
theorem decompress_failure_terminates_stream
    (dec : List Nat → Option (List Nat)) (s : DecompressStream)
    (hidx : s.idx < s.hashes.length)
    (hfail : dec (s.hashes.getD s.idx []) = none) :
    pollNext dec s = (none, s) ∧
    (∀ fuel, pullAll dec fuel s = []) ∧
    (∀ t : DecompressStream, t.hashes.length ≤ t.idx →
      (pollNext dec t).1 = (pollNext dec s).1) ∧
    (∀ (fuel : Nat) (u : DecompressStream) (it : StreamItem),
      it ∈ pullAll dec fuel u → ∃ b, it = Except.ok b) := by
  have hp := pollNext_fail dec s hidx hfail
  refine ⟨hp, ?_, ?_, fun fuel u it hmem => pullAll_items_ok dec fuel u it hmem⟩
  · intro fuel
    cases fuel with
    | zero => rfl
    | succ n => rw [pullAll, hp]
  · intro t ht
    rw [pollNext_exhausted dec t ht, hp]

/-- Claim C7 witness: a concrete one-hash stream whose decompression
fails yields nothing on the first pull and on a five-pull drain. -/
theorem decompress_failure_terminates_stream_witness :
    pollNext decNone (DecompressStream.new [[72]]) =
      (none, DecompressStream.new [[72]]) ∧
    pullAll decNone 5 (DecompressStream.new [[72]]) = [] := by
  have hc := decompress_failure_terminates_stream decNone
    (DecompressStream.new [[72]]) (by decide) rfl
  exact ⟨hc.1, hc.2.1 5⟩

/-- Claim C8: a failed pull leaves the cursor (indeed the whole stream
state) unchanged, so the next pull re-attempts the same hash; if the
chunk has become readable in the meantime, the stream resumes yielding
items after having previously returned `none`. -/
theorem failed_pull_keeps_cursor
    (dec1 dec2 : List Nat → Option (List Nat)) (s : DecompressStream)
    (b : List Nat)
    (hidx : s.idx < s.hashes.length)
    (hfail : dec1 (s.hashes.getD s.idx []) = none)
    (hok : dec2 (s.hashes.getD s.idx []) = some b) :
    (pollNext dec1 s).1 = none ∧
    (pollNext dec1 s).2 = s ∧
    pollNext dec2 (pollNext dec1 s).2 =
      (some (Except.ok b), DecompressStream.mk s.hashes (s.idx + 1)) := by
  have hp := pollNext_fail dec1 s hidx hfail
  refine ⟨by rw [hp], by rw [hp], ?_⟩
  rw [hp]
  exact pollNext_ok dec2 s b hidx hok

/-- Claim C8 witness: after a failed pull on a concrete one-hash stream,
a pull with a now-succeeding resolver yields the chunk and advances the
cursor. -/
theorem failed_pull_keeps_cursor_witness :
    (pollNext decNone (DecompressStream.new [[72]])).2 =
      DecompressStream.new [[72]] ∧
    pollNext (fun _ => some [5]) (pollNext decNone (DecompressStream.new [[72]])).2 =
      (some (Except.ok [5]), DecompressStream.mk [[72]] 1) := by
  have hc := failed_pull_keeps_cursor decNone (fun _ => some [5])
    (DecompressStream.new [[72]]) [5] (by decide) rfl rfl
  exact ⟨hc.2.1, hc.2.2⟩

/-- Helper: index 0 is always a char boundary. -/
theorem isCharBoundary_zero (s : List Nat) : isCharBoundary s 0 = true := by
  simp [isCharBoundary]

/-- Helper: an index holding an ASCII byte is a char boundary. -/
theorem isCharBoundary_of_ascii (s : List Nat) (i : Nat) (b : Nat)
    (hb : s.get? i = some b) (hlt : b < 128) : isCharBoundary s i = true := by
  unfold isCharBoundary
  rw [hb]
  simp
  omega

/-- Helper: the index one past the last byte is a char boundary. -/
theorem isCharBoundary_length (s : List Nat) : isCharBoundary s s.length = true := by
  have hn : s.get? s.length = none := List.get?_eq_none.mpr (Nat.le_refl _)
  simp [isCharBoundary, hn]

/-- Helper: when the string has at least 3 bytes and indices 1 and 3 are
char boundaries, all three slices of `path_from_hash` succeed and the
segments are the first byte, the next two, and the remainder. -/
theorem path_from_hash_of_boundaries (h : List Nat) (hlen : 3 ≤ h.length)
    (b1 : isCharBoundary h 1 = true) (b3 : isCharBoundary h 3 = true) :
    path_from_hash h =
      some (PATH_ROOT, [h.take 1, (h.drop 1).take 2, h.drop 3]) := by
  have s1 : strSlice h 0 1 = some (h.take 1) := by
    simp only [strSlice]
    rw [if_pos ⟨by omega, by omega, isCharBoundary_zero h, b1⟩]
    simp
  have s2 : strSlice h 1 3 = some ((h.drop 1).take 2) := by
    simp only [strSlice]
    rw [if_pos ⟨by omega, hlen, b1, b3⟩]
  have s3 : strSlice h 3 h.length = some (h.drop 3) := by
    simp only [strSlice]
    rw [if_pos ⟨hlen, Nat.le_refl _, b3, isCharBoundary_length h⟩]
    congr 1
    have hd : h.length - 3 = (h.drop 3).length := by simp
    rw [hd, List.take_length]
  unfold path_from_hash
  rw [s1, s2, s3]

/-- Helper: dropping an ASCII head byte preserves (simplified) UTF-8
validity of the tail. -/
theorem utf8ValidB_ascii_step (b : Nat) (l : List Nat) (hb : b < 128)
    (hv : utf8ValidB (b :: l) = true) : utf8ValidB l = true := by
  unfold utf8ValidB at hv
  simpa [hb] using hv

/-- Helper: a (simplified) valid UTF-8 byte list never begins with a
continuation byte (0x80..0xBF). -/
theorem utf8ValidB_no_cont_head (l : List Nat) (hv : utf8ValidB l = true)
    (b : Nat) (hb : l.get? 0 = some b) : b < 128 ∨ 192 ≤ b := by
  cases l with
  | nil => simp at hb
  | cons a t =>
    have hab : a = b := by simpa using hb
    subst hab
    by_contra hc
    push_neg at hc
    unfold utf8ValidB at hv
    rw [if_neg (by omega), if_pos (by omega)] at hv
    simp at hv

/-- Claim C9: `path_from_hash` is a pure deterministic function — equal
hash strings map to equal paths — and on a 64-character hex hash it
returns the fixed storage root joined with exactly three segments: the
first character, the next two characters, and the remaining 61
characters (their concatenation restores the hash). -/
theorem path_from_hash_deterministic_shape (h : List Nat)
    (hlen : h.length = 64) (hhex : ∀ b ∈ h, isHexByte b) :
    (∀ h2 : List Nat, h2 = h → path_from_hash h2 = path_from_hash h) ∧
    path_from_hash h =
      some (PATH_ROOT, [h.take 1, (h.drop 1).take 2, h.drop 3]) ∧
    (h.take 1).length = 1 ∧ ((h.drop 1).take 2).length = 2 ∧
    (h.drop 3).length = 61 ∧
    h.take 1 ++ ((h.drop 1).take 2 ++ h.drop 3) = h := by
  have hasc : ∀ i b, h.get? i = some b → b < 128 := by
    intro i b hb
    have hmem : b ∈ h := List.get?_mem hb
    have hx := hhex b hmem
    unfold isHexByte at hx
    omega
  have bnd : ∀ i, i < h.length → isCharBoundary h i = true := by
    intro i hi
    cases hg : h.get? i with
    | none =>
      have := List.get?_eq_none.mp hg
      omega
    | some b => exact isCharBoundary_of_ascii h i b hg (hasc i b hg)
  have hshape := path_from_hash_of_boundaries h (by omega)
    (bnd 1 (by omega)) (bnd 3 (by omega))
  refine ⟨fun h2 he => by rw [he], hshape, ?_, ?_, ?_, ?_⟩
  · simp [hlen]
  · simp [hlen]
  · simp [hlen]
  · have h3 : h.drop 3 = (h.drop 1).drop 2 := by
      rw [List.drop_drop]
    rw [h3, List.take_append_drop, List.take_append_drop]

/-- Claim C9 witness: the 64-character hash of all `A` bytes maps to the
root plus the segments of lengths 1, 2 and 61. -/
theorem path_from_hash_deterministic_shape_witness :
    path_from_hash (List.replicate 64 65) =
      some (PATH_ROOT, [(List.replicate 64 65).take 1,
        ((List.replicate 64 65).drop 1).take 2,
        (List.replicate 64 65).drop 3]) ∧
    ((List.replicate 64 65).take 1).length = 1 ∧
    (((List.replicate 64 65).drop 1).take 2).length = 2 ∧
    ((List.replicate 64 65).drop 3).length = 61 := by
  have hc := path_from_hash_deterministic_shape (List.replicate 64 65)
    (by decide) (by decide)
  exact ⟨hc.2.1, hc.2.2.1, hc.2.2.2.1, hc.2.2.2.2.1⟩

/-- Claim C10: `path_from_hash` returns without panicking on every valid
string of length at least 3 whose first three bytes are ASCII; on a
string of length exactly 3 the third path segment is empty; on every
string shorter than 3 bytes the slicing panics. -/
theorem path_from_hash_short_inputs :
    (∀ h : List Nat, utf8ValidB h = true → 3 ≤ h.length →
      h.getD 0 0 < 128 → h.getD 1 0 < 128 → h.getD 2 0 < 128 →
      path_from_hash h =
        some (PATH_ROOT, [h.take 1, (h.drop 1).take 2, h.drop 3])) ∧
    (∀ h : List Nat, utf8ValidB h = true → h.length = 3 →
      h.getD 0 0 < 128 → h.getD 1 0 < 128 → h.getD 2 0 < 128 →
      path_from_hash h = some (PATH_ROOT, [h.take 1, (h.drop 1).take 2, []])) ∧
    (∀ h : List Nat, h.length < 3 → path_from_hash h = none) := by
  have part1 : ∀ h : List Nat, utf8ValidB h = true → 3 ≤ h.length →
      h.getD 0 0 < 128 → h.getD 1 0 < 128 → h.getD 2 0 < 128 →
      path_from_hash h =
        some (PATH_ROOT, [h.take 1, (h.drop 1).take 2, h.drop 3]) := by
    intro h hv hlen h0 h1 h2
    rcases h with _ | ⟨b0, _ | ⟨c1, _ | ⟨c2, rest⟩⟩⟩
    · simp at hlen
    · simp at hlen
    · simp at hlen
    · simp only [List.getD_cons_zero, List.getD_cons_succ] at h0 h1 h2
      have hv1 := utf8ValidB_ascii_step _ _ h0 hv
      have hv2 := utf8ValidB_ascii_step _ _ h1 hv1
      have hv3 := utf8ValidB_ascii_step _ _ h2 hv2
      have bd1 : isCharBoundary (b0 :: c1 :: c2 :: rest) 1 = true :=
        isCharBoundary_of_ascii _ 1 c1 rfl h1
      have bd3 : isCharBoundary (b0 :: c1 :: c2 :: rest) 3 = true := by
        cases rest with
        | nil => exact isCharBoundary_length _
        | cons b3v t =>
          have hd := utf8ValidB_no_cont_head _ hv3 b3v rfl
          unfold isCharBoundary
          rw [show ((b0 :: c1 :: c2 :: b3v :: t).get? 3) = some b3v from rfl]
          simp
          omega
      exact path_from_hash_of_boundaries _ (by simp) bd1 bd3
  refine ⟨part1, fun h hv hlen h0 h1 h2 => ?_, fun h hl => ?_⟩
  · have hp := part1 h hv (by omega) h0 h1 h2
    have hd : h.drop 3 = [] := List.drop_eq_nil_of_le (by omega)
    rw [hp, hd]
  · have s2 : strSlice h 1 3 = none := by
      simp only [strSlice]
      rw [if_neg (fun hcond => absurd hcond.2.1 (by omega))]
    unfold path_from_hash
    rw [s2]
    cases strSlice h 0 1 <;> cases strSlice h 3 h.length <;> rfl

/-- Claim C10 witness: the three behaviors at concrete inputs of lengths
4, 3 and 2. -/
theorem path_from_hash_short_inputs_witness :
    path_from_hash [65, 66, 67, 68] = some (PATH_ROOT, [[65], [66, 67], [68]]) ∧
    path_from_hash [65, 66, 67] = some (PATH_ROOT, [[65], [66, 67], []]) ∧
    path_from_hash [65, 66] = none := by
  refine ⟨?_, ?_, path_from_hash_short_inputs.2.2 [65, 66] (by decide)⟩
  · have hp := path_from_hash_short_inputs.1 [65, 66, 67, 68] (by decide)
      (by decide) (by decide) (by decide) (by decide)
    simpa using hp
  · have hp := path_from_hash_short_inputs.2.1 [65, 66, 67] (by decide)
      (by decide) (by decide) (by decide) (by decide)
    simpa using hp

/-- Claim C5 (refuted by the code): on a structurally corrupt archive,
`load_metadata` PANICS instead of returning a typed error — the source
calls `.unwrap()` on `rkyv::check_archived_root`.  Concretely: the file
at the requested path exists and decrypts (decryption here is the
identity), but the plaintext fails the structural check; the outcome is
the panic, which is not an `Err` value of any message. -/
theorem load_metadata_panics_on_corrupt_archive :
    load_metadata (fun b => some b) (fun _ => none) (fun _ => some [0]) [1] =
      LoadOutcome.panicked ∧
    (∀ e : String,
      load_metadata (fun b => some b) (fun _ => none) (fun _ => some [0]) [1] ≠
        LoadOutcome.err e) ∧
    (∀ m : Metadata,
      load_metadata (fun b => some b) (fun _ => none) (fun _ => some [0]) [1] ≠
        LoadOutcome.ok m) := by
  refine ⟨rfl, ?_, ?_⟩
  · intro e he
    rw [show load_metadata (fun b => some b) (fun _ => none)
      (fun _ => some [0]) [1] = LoadOutcome.panicked from rfl] at he
    exact LoadOutcome.noConfusion he
  · intro m hm
    rw [show load_metadata (fun b => some b) (fun _ => none)
      (fun _ => some [0]) [1] = LoadOutcome.panicked from rfl] at hm
    exact LoadOutcome.noConfusion hm

/-- Claim C6: saving a `Metadata` value and loading it back from the same
path reconstructs the value field-for-field (name, size, file type,
time, and the chunk list in its exact order), given the serializer/
structural-check round-trip contract of rkyv and mutually inverse
encrypt/decrypt at the bytes involved. -/
theorem metadata_roundtrip
    (ser : Metadata → Option (List Nat)) (check : List Nat → Option Metadata)
    (encrypt decrypt : List Nat → Option (List Nat))
    (store : List Nat → Option (List Nat)) (path : List Nat) (m : Metadata)
    (archBytes cipher : List Nat)
    (hser : ser m = some archBytes)
    (henc : encrypt archBytes = some cipher)
    (hdec : decrypt cipher = some archBytes)
    (hcheck : check archBytes = some m) :
    ∃ store1, save_metadata ser encrypt store path m = some store1 ∧
      load_metadata decrypt check store1 path = LoadOutcome.ok m ∧
      ∀ m1, load_metadata decrypt check store1 path = LoadOutcome.ok m1 →
        m1.name = m.name ∧ m1.size = m.size ∧ m1.file_type = m.file_type ∧
        m1.time = m.time ∧ m1.chunks = m.chunks := by
  refine ⟨fun p => if p = path then some cipher else store p, ?_, ?_, ?_⟩
  · simp only [save_metadata, hser, henc]
  · simp [load_metadata, hdec, hcheck]
  · intro m1 hm1
    simp [load_metadata, hdec, hcheck, LoadOutcome.ok.injEq] at hm1
    subst hm1
    exact ⟨rfl, rfl, rfl, rfl, rfl⟩

/-- Concrete metadata value for the round-trip witness. -/
def m0 : Metadata := Metadata.mk [97] 5 [116] 0 [[72], [73]]

/-- Concrete (witness) serializer: recognizes `m0` only. -/
def ser0 : Metadata → Option (List Nat) :=
  fun m => if m = m0 then some [9] else none

/-- Concrete (witness) structural check, inverse of `ser0` on `m0`. -/
def check0 : List Nat → Option Metadata :=
  fun b => if b = [9] then some m0 else none

/-- Concrete (witness) encryption: prepend a byte. -/
def enc0 : List Nat → Option (List Nat) := fun b => some (0 :: b)

/-- Concrete (witness) decryption: drop the first byte — the inverse of
`enc0`. -/
def dec0 : List Nat → Option (List Nat) :=
  fun b =>
    match b with
    | [] => none
    | _ :: t => some t

/-- Claim C6 witness: the round-trip at the concrete value `m0`,
path `[3]`, and the concrete codec/cipher instances. -/
theorem metadata_roundtrip_witness :
    ∃ store1, save_metadata ser0 enc0 (fun _ => none) [3] m0 = some store1 ∧
      load_metadata dec0 check0 store1 [3] = LoadOutcome.ok m0 ∧
      ∀ m1, load_metadata dec0 check0 store1 [3] = LoadOutcome.ok m1 →
        m1.name = m0.name ∧ m1.size = m0.size ∧ m1.file_type = m0.file_type ∧
        m1.time = m0.time ∧ m1.chunks = m0.chunks :=
  metadata_roundtrip ser0 check0 enc0 dec0 (fun _ => none) [3] m0 [9] [0, 9]
    (by simp [ser0]) (by simp [enc0]) (by simp [dec0]) (by simp [check0])

/-- Claim C3: for every input vector (of any length) and every chunk
size — and every digest function, compression function and prior chunk
store — `split_file_and_save` returns `Ok` with `total_size` 0, an empty
hash list, and an untouched chunk store.  The buffer handed to the
reader is the freshly created empty `BytesMut`, so every read fills a
zero-length slice and returns 0 bytes. -/
theorem split_file_and_save_always_returns_empty
    (sha comp : List Nat → List Nat) (data : List Nat) (chunk_size : Nat)
    (files : List (List Nat × List Nat)) :
    split_file_and_save sha comp data chunk_size files =
      some (0, [], files) :=
  split_file_and_save_run sha comp data chunk_size files

/-- Claim C4: on empty input `split_file_and_save` returns `total_size` 0
and an empty hash list, the chunk store is untouched (no chunk files
created), and the final-flush step emits no zero-length chunk — the hash
list stays empty. -/
theorem split_file_and_save_empty_input
    (sha comp : List Nat → List Nat) (chunk_size : Nat)
    (files : List (List Nat × List Nat)) :
    split_file_and_save sha comp [] chunk_size files =
      some (0, [], files) :=
  split_file_and_save_run sha comp [] chunk_size files

/-- Claim C1 (refuted by the code): the split/reconstruct round-trip FAILS
at the one-byte buffer `b = [65]` with chunk size 1.  The code returns
`(0, [])` (the zero-capacity `BytesMut` makes every read return 0 — by
`split_file_and_save_always_returns_empty` this is independent of the
digest and compression functions, so evaluating at the dummy instances is
conclusive); pulling a `DecompressStream` over the returned empty hash
list to exhaustion yields segments concatenating to `[]`, which differs
from `b`, and the returned total size 0 differs from `b.length = 1`. -/
theorem roundtrip_fails_on_one_byte_input :
    split_file_and_save shaId compId [65] 1 [] = some (0, [], []) ∧
    pullAll decNone 2 (DecompressStream.new []) = [] ∧
    itemsBytes (pullAll decNone 2 (DecompressStream.new [])) = [] ∧
    ([] : List Nat) ≠ [65] ∧ (0 : Nat) ≠ ([65] : List Nat).length := by
  exact ⟨rfl, rfl, rfl, by decide, by decide⟩

/-- Claim C2 (refuted by the code): boundary chunking FAILS at an input of
exactly `k * c` bytes with `k = 1`, `c = 1` (the one-byte buffer `[7]`).
The claim demands exactly one chunk of one byte (hash list of length 1);
the code returns `(0, [])` — a hash list of length 0 and no stored
chunk. -/
theorem boundary_chunking_fails_on_exact_multiple :
    split_file_and_save shaId compId [7] 1 [] = some (0, [], []) ∧
    ([] : List (List Nat)).length = 0 ∧ (0 : Nat) ≠ 1 := by
  exact ⟨rfl, rfl, by decide⟩
